import Mathlib

/-!
# Verification of the embed-popup RPC bridge

Shallow embedding of the TypeScript sources of `agent-starter-embed`:

* `src/components/embed-popup/rpc/rpc-client.ts` (`findAgent`, `sendDomElements`),
* `src/components/embed-popup/agent-client.tsx` (`sendData`),
* the unnamed source registering the inbound RPC handlers
  (`registerClientRpcHandlers`, in particular the `client.click_button` handler).

The envelope codec used throughout (`JSON.stringify` / `JSON.parse`) is the
JavaScript builtin, not part of the repository sources; it is modelled here
from the specification (section "Envelope Codec") as an executable JSON
stringifier and parser over a JSON value type whose numbers are integers.
-/

namespace AgentEmbed

/-- The character `\x7b` (left curly brace). -/
def lbrace : Char := Char.ofNat 123

/-- The character `\x7d` (right curly brace). -/
def rbrace : Char := Char.ofNat 125

/-- Modelled from the spec: the value domain of the envelope codec
(JSON values as handled by the `JSON.parse` / `JSON.stringify` builtins,
which are not part of `src/`).  JSON numbers are modelled as integers. -/
inductive Json where
  | null
  | bool (b : Bool)
  | num (n : Int)
  | str (s : String)
  | arr (elems : List Json)
  | obj (fields : List (String × Json))

/-- Lower-case hexadecimal digit for `n < 16`. -/
def hexDigitChar (n : Nat) : Char :=
  if n < 10 then Char.ofNat (48 + n) else Char.ofNat (87 + n)

/-- Decimal digit character for `n < 10`. -/
def digitChar (n : Nat) : Char := Char.ofNat (48 + n)

/-- JSON string-literal escaping of a single character, as performed by
`JSON.stringify`: quote, backslash and the named control characters get a
two-character escape, the remaining control characters a `\u00XX` escape,
and every other character stands for itself. -/
def escapeChar (c : Char) : List Char :=
  if c = '"' then ['\\', '"']
  else if c = '\\' then ['\\', '\\']
  else if c = '\n' then ['\\', 'n']
  else if c = '\t' then ['\\', 't']
  else if c = '\r' then ['\\', 'r']
  else if c = Char.ofNat 8 then ['\\', 'b']
  else if c = Char.ofNat 12 then ['\\', 'f']
  else if c.toNat < 32 then
    ['\\', 'u', '0', '0', hexDigitChar (c.toNat / 16), hexDigitChar (c.toNat % 16)]
  else [c]

/-- Escape every character of a string body. -/
def escapeChars : List Char → List Char
  | [] => []
  | c :: cs => escapeChar c ++ escapeChars cs

/-- A JSON string literal: quote, escaped body, quote. -/
def stringChars (s : String) : List Char := '"' :: (escapeChars s.data ++ ['"'])

/-- Decimal digits of `n`, most significant first, prepended to `acc`. -/
def natToCharsAux (n : Nat) (acc : List Char) : List Char :=
  if h : n < 10 then digitChar n :: acc
  else natToCharsAux (n / 10) (digitChar (n % 10) :: acc)
termination_by n
decreasing_by
  exact Nat.div_lt_self (by omega) (by omega)

/-- Decimal digits of `n`, most significant first. -/
def natToChars (n : Nat) : List Char := natToCharsAux n []

/-- Decimal rendering of an integer (sign, then digits). -/
def intToChars (i : Int) : List Char :=
  if i < 0 then '-' :: natToChars i.natAbs else natToChars i.natAbs

mutual
/-- Modelled from the spec: `encode` of the envelope codec
(`JSON.stringify`, character-list form).  No whitespace is emitted and
object fields keep their order, matching the builtin's canonical output. -/
def jsonChars : Json → List Char
  | .null => "null".data
  | .bool true => "true".data
  | .bool false => "false".data
  | .num n => intToChars n
  | .str s => stringChars s
  | .arr [] => ['[', ']']
  | .arr (x :: xs) => '[' :: (jsonChars x ++ (arrTailChars xs ++ [']']))
  | .obj [] => [lbrace, rbrace]
  | .obj ((k, v) :: kvs) =>
      lbrace :: (stringChars k ++ (':' :: (jsonChars v ++ (objTailChars kvs ++ [rbrace]))))

/-- Comma-separated rendering of the remaining array elements. -/
def arrTailChars : List Json → List Char
  | [] => []
  | x :: xs => ',' :: (jsonChars x ++ arrTailChars xs)

/-- Comma-separated rendering of the remaining object fields. -/
def objTailChars : List (String × Json) → List Char
  | [] => []
  | (k, v) :: kvs => ',' :: (stringChars k ++ (':' :: (jsonChars v ++ objTailChars kvs)))
end

/-- `encode` of the envelope codec (`JSON.stringify`), on `String`. -/
def jsonStringify (v : Json) : String := String.mk (jsonChars v)

/-- Is `c` a decimal digit? -/
def isDigitChar (c : Char) : Bool := 48 ≤ c.toNat && c.toNat ≤ 57

/-- Numeric value of a decimal digit character. -/
def digitVal (c : Char) : Nat := c.toNat - 48

/-- Consume leading decimal digits, accumulating their value. -/
def parseDigitsAcc : Nat → List Char → Nat × List Char
  | acc, [] => (acc, [])
  | acc, c :: rest =>
    if isDigitChar c then parseDigitsAcc (acc * 10 + digitVal c) rest
    else (acc, c :: rest)

/-- Does the input start with a decimal digit? -/
def headIsDigit : List Char → Bool
  | [] => false
  | c :: _ => isDigitChar c

/-- Parse a JSON number (optional minus sign, then digits). -/
def parseNumber (input : List Char) : Option (Int × List Char) :=
  match input with
  | [] => none
  | c :: rest =>
    if c = '-' then
      if headIsDigit rest then
        let p := parseDigitsAcc 0 rest
        some (-(p.1 : Int), p.2)
      else none
    else if isDigitChar c then
      let p := parseDigitsAcc 0 (c :: rest)
      some ((p.1 : Int), p.2)
    else none

/-- Numeric value of a hexadecimal digit character. -/
def hexVal (c : Char) : Option Nat :=
  if 48 ≤ c.toNat && c.toNat ≤ 57 then some (c.toNat - 48)
  else if 97 ≤ c.toNat && c.toNat ≤ 102 then some (c.toNat - 87)
  else if 65 ≤ c.toNat && c.toNat ≤ 70 then some (c.toNat - 55)
  else none

/-- Decode a two-character escape (the character after the backslash). -/
def unescapeChar (c : Char) : Option Char :=
  if c = '"' then some '"'
  else if c = '\\' then some '\\'
  else if c = '/' then some '/'
  else if c = 'n' then some '\n'
  else if c = 't' then some '\t'
  else if c = 'r' then some '\r'
  else if c = 'b' then some (Char.ofNat 8)
  else if c = 'f' then some (Char.ofNat 12)
  else none

/-- Parse the body of a JSON string literal after the opening quote,
returning the decoded characters and the input after the closing quote. -/
def parseStringBody : List Char → Option (List Char × List Char)
  | [] => none
  | c :: rest =>
    if c = '"' then some ([], rest)
    else if c = '\\' then
      match rest with
      | [] => none
      | e :: rest2 =>
        if e = 'u' then
          match rest2 with
          | h1 :: h2 :: h3 :: h4 :: rest3 =>
            match hexVal h1, hexVal h2, hexVal h3, hexVal h4 with
            | some a, some b, some c4, some d =>
              match parseStringBody rest3 with
              | some (s, r) => some (Char.ofNat (((a * 16 + b) * 16 + c4) * 16 + d) :: s, r)
              | none => none
            | _, _, _, _ => none
          | _ => none
        else
          match unescapeChar e with
          | some c2 =>
            match parseStringBody rest2 with
            | some (s, r) => some (c2 :: s, r)
            | none => none
          | none => none
    else
      match parseStringBody rest with
      | some (s, r) => some (c :: s, r)
      | none => none

mutual
/-- Modelled from the spec: `decode` of the envelope codec (`JSON.parse`)
for the codec's own canonical (whitespace-free) output.  `fuel` bounds the
nesting of recursive values; `jsonParse` supplies a sufficient amount. -/
def parseValue : Nat → List Char → Option (Json × List Char)
  | 0, _ => none
  | _ + 1, [] => none
  | fuel + 1, c :: rest =>
    if c = 'n' then
      match rest with
      | 'u' :: 'l' :: 'l' :: r => some (.null, r)
      | _ => none
    else if c = 't' then
      match rest with
      | 'r' :: 'u' :: 'e' :: r => some (.bool true, r)
      | _ => none
    else if c = 'f' then
      match rest with
      | 'a' :: 'l' :: 's' :: 'e' :: r => some (.bool false, r)
      | _ => none
    else if c = '"' then
      match parseStringBody rest with
      | some (s, r) => some (.str (String.mk s), r)
      | none => none
    else if c = '[' then
      match rest with
      | [] => none
      | c2 :: r2 =>
        if c2 = ']' then some (.arr [], r2)
        else
          match parseValue fuel (c2 :: r2) with
          | some (x, r3) =>
            match parseArrTail fuel r3 with
            | some (xs, r4) => some (.arr (x :: xs), r4)
            | none => none
          | none => none
    else if c = lbrace then
      match rest with
      | [] => none
      | c2 :: r2 =>
        if c2 = rbrace then some (.obj [], r2)
        else if c2 = '"' then
          match parseStringBody r2 with
          | some (k, r3) =>
            match r3 with
            | ':' :: r4 =>
              match parseValue fuel r4 with
              | some (v, r5) =>
                match parseObjTail fuel r5 with
                | some (kvs, r6) => some (.obj ((String.mk k, v) :: kvs), r6)
                | none => none
              | none => none
            | _ => none
          | none => none
        else none
    else if c = '-' || isDigitChar c then
      match parseNumber (c :: rest) with
      | some (n, r) => some (.num n, r)
      | none => none
    else none

/-- Parse the rest of an array after one element: `]` ends it, `,` is
followed by the next element. -/
def parseArrTail : Nat → List Char → Option (List Json × List Char)
  | 0, _ => none
  | _ + 1, [] => none
  | fuel + 1, c :: rest =>
    if c = ']' then some ([], rest)
    else if c = ',' then
      match parseValue fuel rest with
      | some (x, r2) =>
        match parseArrTail fuel r2 with
        | some (xs, r3) => some (x :: xs, r3)
        | none => none
      | none => none
    else none

/-- Parse the rest of an object after one field: `\x7d` ends it, `,` is
followed by the next `"key":value` field. -/
def parseObjTail : Nat → List Char → Option (List (String × Json) × List Char)
  | 0, _ => none
  | _ + 1, [] => none
  | fuel + 1, c :: rest =>
    if c = rbrace then some ([], rest)
    else if c = ',' then
      match rest with
      | [] => none
      | c2 :: r2 =>
        if c2 = '"' then
          match parseStringBody r2 with
          | some (k, r3) =>
            match r3 with
            | ':' :: r4 =>
              match parseValue fuel r4 with
              | some (v, r5) =>
                match parseObjTail fuel r5 with
                | some (kvs, r6) => some ((String.mk k, v) :: kvs, r6)
                | none => none
              | none => none
            | _ => none
          | none => none
        else none
    else none
end

/-- `decode` of the envelope codec (`JSON.parse`): parse the whole string
as one JSON value, or fail. -/
def jsonParse (s : String) : Option Json :=
  match parseValue (s.data.length + 1) s.data with
  | some (v, []) => some v
  | _ => none

mutual
/-- Structural size of a JSON value (used to bound the parser's fuel). -/
def jsizeV : Json → Nat
  | .null => 1
  | .bool _ => 1
  | .num _ => 1
  | .str _ => 1
  | .arr xs => jsizeA xs + 1
  | .obj kvs => jsizeO kvs + 1

/-- Structural size of an array tail. -/
def jsizeA : List Json → Nat
  | [] => 0
  | x :: xs => jsizeV x + jsizeA xs + 1

/-- Structural size of an object tail. -/
def jsizeO : List (String × Json) → Nat
  | [] => 0
  | (_, v) :: kvs => jsizeV v + jsizeO kvs + 1
end

theorem parseDigitsAcc_stop (a : Nat) (rest : List Char) (h : headIsDigit rest = false) :
    parseDigitsAcc a rest = (a, rest) := by
  cases rest with
  | nil => rfl
  | cons c r =>
    simp only [headIsDigit] at h
    simp [parseDigitsAcc, h]

theorem natToCharsAux_eq_append (n : Nat) :
    ∀ acc, natToCharsAux n acc = natToChars n ++ acc := by
  induction n using Nat.strong_induction_on with
  | _ n ih =>
    intro acc
    by_cases h : n < 10
    · rw [natToCharsAux, dif_pos h, natToChars, natToCharsAux, dif_pos h]
      simp
    · rw [natToCharsAux, dif_neg h,
        ih (n / 10) (Nat.div_lt_self (by omega) (by omega))]
      conv_rhs => rw [natToChars, natToCharsAux, dif_neg h,
        ih (n / 10) (Nat.div_lt_self (by omega) (by omega))]
      simp

theorem isDigitChar_digitChar (d : Nat) (h : d < 10) :
    isDigitChar (digitChar d) = true := by
  interval_cases d <;> decide

theorem digitVal_digitChar (d : Nat) (h : d < 10) : digitVal (digitChar d) = d := by
  interval_cases d <;> decide

theorem natToChars_head (n : Nat) :
    ∃ c cs, natToChars n = c :: cs ∧ isDigitChar c = true := by
  induction n using Nat.strong_induction_on with
  | _ n ih =>
    by_cases h : n < 10
    · refine ⟨digitChar n, [], ?_, isDigitChar_digitChar n h⟩
      rw [natToChars, natToCharsAux, dif_pos h]
    · obtain ⟨c, cs, hc, hdig⟩ := ih (n / 10) (Nat.div_lt_self (by omega) (by omega))
      refine ⟨c, cs ++ [digitChar (n % 10)], ?_, hdig⟩
      rw [natToChars, natToCharsAux, dif_neg h, natToCharsAux_eq_append, hc]
      simp

theorem parseDigitsAcc_natToChars (n : Nat) :
    ∀ a rest, parseDigitsAcc a (natToChars n ++ rest) =
      parseDigitsAcc (a * 10 ^ (natToChars n).length + n) rest := by
  induction n using Nat.strong_induction_on with
  | _ n ih =>
    intro a rest
    by_cases h : n < 10
    · have hn : natToChars n = [digitChar n] := by
        rw [natToChars, natToCharsAux, dif_pos h]
      rw [hn]
      simp only [List.cons_append, List.nil_append, List.length_cons, List.length_nil]
      rw [parseDigitsAcc]
      simp [isDigitChar_digitChar n h, digitVal_digitChar n h]
    · have hn : natToChars n = natToChars (n / 10) ++ [digitChar (n % 10)] := by
        rw [natToChars, natToCharsAux, dif_neg h, natToCharsAux_eq_append]
      rw [hn]
      rw [List.append_assoc, List.cons_append, List.nil_append,
        ih (n / 10) (Nat.div_lt_self (by omega) (by omega))]
      rw [parseDigitsAcc]
      have h10 : (10:Nat) % 10 = 0 := by omega
      simp only [isDigitChar_digitChar (n % 10) (by omega), if_true,
        digitVal_digitChar (n % 10) (by omega)]
      have hlen : (natToChars (n / 10) ++ [digitChar (n % 10)]).length =
          (natToChars (n / 10)).length + 1 := by simp
      rw [hlen]
      congr 1
      have := Nat.div_add_mod n 10
      rw [pow_succ]
      ring_nf
      omega

theorem parseDigits_roundtrip (n : Nat) (rest : List Char)
    (h : headIsDigit rest = false) :
    parseDigitsAcc 0 (natToChars n ++ rest) = (n, rest) := by
  rw [parseDigitsAcc_natToChars]
  simp [parseDigitsAcc_stop _ _ h]

theorem isDigitChar_ne_minus (c : Char) (h : isDigitChar c = true) : c ≠ '-' := by
  intro hc; subst hc; simp [isDigitChar] at h

theorem parseNumber_roundtrip (i : Int) (rest : List Char)
    (h : headIsDigit rest = false) :
    parseNumber (intToChars i ++ rest) = some (i, rest) := by
  by_cases hi : i < 0
  · rw [intToChars]
    simp only [hi, if_true]
    obtain ⟨c, cs, hc, hdig⟩ := natToChars_head i.natAbs
    rw [List.cons_append, parseNumber]
    simp only [if_pos rfl]
    have hd : headIsDigit (natToChars i.natAbs ++ rest) = true := by
      rw [hc]; simpa [headIsDigit] using hdig
    rw [hd]
    simp only [if_true, parseDigits_roundtrip i.natAbs rest h]
    have : -(i.natAbs : Int) = i := by omega
    rw [this]
  · rw [intToChars]
    simp only [hi, if_false]
    obtain ⟨c, cs, hc, hdig⟩ := natToChars_head i.natAbs
    rw [hc, List.cons_append, parseNumber]
    have hcm : ¬(c = '-') := isDigitChar_ne_minus c hdig
    simp only [hcm, if_false, hdig, if_true]
    rw [← List.cons_append, ← hc, parseDigits_roundtrip i.natAbs rest h]
    have : ((i.natAbs : Nat) : Int) = i := by omega
    rw [this]

theorem hexVal_hexDigitChar : ∀ n < 16, hexVal (hexDigitChar n) = some n := by decide

theorem parseStringBody_escape (l rest : List Char) :
    parseStringBody (escapeChars l ++ ('"' :: rest)) = some (l, rest) := by
  induction l with
  | nil =>
    rw [escapeChars, List.nil_append, parseStringBody.eq_def]
    simp
  | cons c cs ih =>
    rw [escapeChars, List.append_assoc, escapeChar]
    by_cases h1 : c = '"'
    · subst h1
      rw [if_pos rfl]
      simp only [List.cons_append, List.nil_append]
      rw [parseStringBody.eq_def]
      simp +decide [unescapeChar, ih]
    rw [if_neg h1]
    by_cases h2 : c = '\\'
    · subst h2
      rw [if_pos rfl]
      simp only [List.cons_append, List.nil_append]
      rw [parseStringBody.eq_def]
      simp +decide [unescapeChar, ih]
    rw [if_neg h2]
    by_cases h3 : c = '\n'
    · subst h3
      rw [if_pos rfl]
      simp only [List.cons_append, List.nil_append]
      rw [parseStringBody.eq_def]
      simp +decide [unescapeChar, ih]
    rw [if_neg h3]
    by_cases h4 : c = '\t'
    · subst h4
      rw [if_pos rfl]
      simp only [List.cons_append, List.nil_append]
      rw [parseStringBody.eq_def]
      simp +decide [unescapeChar, ih]
    rw [if_neg h4]
    by_cases h5 : c = '\r'
    · subst h5
      rw [if_pos rfl]
      simp only [List.cons_append, List.nil_append]
      rw [parseStringBody.eq_def]
      simp +decide [unescapeChar, ih]
    rw [if_neg h5]
    by_cases h6 : c = Char.ofNat 8
    · subst h6
      rw [if_pos rfl]
      simp only [List.cons_append, List.nil_append]
      rw [parseStringBody.eq_def]
      simp +decide [unescapeChar, ih]
    rw [if_neg h6]
    by_cases h7 : c = Char.ofNat 12
    · subst h7
      rw [if_pos rfl]
      simp only [List.cons_append, List.nil_append]
      rw [parseStringBody.eq_def]
      simp +decide [unescapeChar, ih]
    rw [if_neg h7]
    by_cases h8 : c.toNat < 32
    · rw [if_pos h8]
      simp only [List.cons_append, List.nil_append]
      rw [parseStringBody.eq_def]
      have e1 : hexVal '0' = some 0 := by decide
      have e2 : hexVal (hexDigitChar (c.toNat / 16)) = some (c.toNat / 16) :=
        hexVal_hexDigitChar _ (by omega)
      have e3 : hexVal (hexDigitChar (c.toNat % 16)) = some (c.toNat % 16) :=
        hexVal_hexDigitChar _ (by omega)
      simp +decide only [e1, e2, e3, ih]
      have hv : ((0 * 16 + 0) * 16 + c.toNat / 16) * 16 + c.toNat % 16 = c.toNat := by
        omega
      rw [hv, Char.ofNat_toNat]
      simp
    · rw [if_neg h8]
      simp only [List.cons_append, List.nil_append]
      rw [parseStringBody.eq_def]
      simp [h1, h2, ih]

theorem parseStringBody_stringChars (s : String) (rest : List Char) :
    parseStringBody (escapeChars s.data ++ ('"' :: rest)) = some (s.data, rest) :=
  parseStringBody_escape s.data rest

theorem string_mk_data (s : String) : String.mk s.data = s := by cases s; rfl

theorem isDigitChar_facts (c : Char) (h : isDigitChar c = true) :
    c ≠ 'n' ∧ c ≠ 't' ∧ c ≠ 'f' ∧ c ≠ '"' ∧ c ≠ '[' ∧ c ≠ lbrace ∧ c ≠ ']' := by
  refine ⟨?_, ?_, ?_, ?_, ?_, ?_, ?_⟩ <;> · intro he; subst he; revert h; decide

theorem jsizeV_pos (x : Json) : 1 ≤ jsizeV x := by
  cases x <;> simp [jsizeV]

theorem jsonChars_head (x : Json) :
    ∃ c cs, jsonChars x = c :: cs ∧ c ≠ ']' := by
  cases x with
  | null => exact ⟨'n', _, rfl, by decide⟩
  | bool b =>
    cases b with
    | false => exact ⟨'f', _, rfl, by decide⟩
    | true => exact ⟨'t', _, rfl, by decide⟩
  | num n =>
    by_cases hn : n < 0
    · exact ⟨'-', natToChars n.natAbs,
        by show intToChars n = _; rw [intToChars, if_pos hn], by decide⟩
    · obtain ⟨c, cs, hc, hd⟩ := natToChars_head n.natAbs
      exact ⟨c, cs,
        by show intToChars n = _; rw [intToChars, if_neg hn, hc],
        (isDigitChar_facts c hd).2.2.2.2.2.2⟩
  | str s => exact ⟨'"', _, rfl, by decide⟩
  | arr xs =>
    cases xs with
    | nil => exact ⟨'[', _, rfl, by decide⟩
    | cons x xs => exact ⟨'[', _, rfl, by decide⟩
  | obj kvs =>
    cases kvs with
    | nil => exact ⟨lbrace, _, rfl, by decide⟩
    | cons kv kvs =>
      obtain ⟨k, v⟩ := kv
      exact ⟨lbrace, _, rfl, by decide⟩

theorem headIsDigit_arrTail (xs : List Json) (r : List Char) :
    headIsDigit (arrTailChars xs ++ (']' :: r)) = false := by
  cases xs
  · rfl
  · rfl

theorem headIsDigit_objTail (kvs : List (String × Json)) (r : List Char) :
    headIsDigit (objTailChars kvs ++ (rbrace :: r)) = false := by
  cases kvs with
  | nil => rfl
  | cons kv kvs => obtain ⟨k, v⟩ := kv; rfl

theorem parseValue_str (f : Nat) (tail : List Char) :
    parseValue (f + 1) ('"' :: tail) =
      match parseStringBody tail with
      | some (s, r) => some (.str (String.mk s), r)
      | none => none := rfl

theorem parseValue_arr (f : Nat) (c2 : Char) (r2 : List Char) :
    parseValue (f + 1) ('[' :: c2 :: r2) =
      if c2 = ']' then some (.arr [], r2)
      else
        match parseValue f (c2 :: r2) with
        | some (x, r3) =>
          (match parseArrTail f r3 with
           | some (xs, r4) => some (.arr (x :: xs), r4)
           | none => none)
        | none => none := rfl

theorem parseValue_obj_quote (f : Nat) (r2 : List Char) :
    parseValue (f + 1) (lbrace :: '"' :: r2) =
      match parseStringBody r2 with
      | some (k, r3) =>
        (match r3 with
         | ':' :: r4 =>
           (match parseValue f r4 with
            | some (v, r5) =>
              (match parseObjTail f r5 with
               | some (kvs, r6) => some (.obj ((String.mk k, v) :: kvs), r6)
               | none => none)
            | none => none)
         | _ => none)
      | none => none := rfl

theorem parseArrTail_cons (f : Nat) (c : Char) (rest : List Char) :
    parseArrTail (f + 1) (c :: rest) =
      if c = ']' then some ([], rest)
      else if c = ',' then
        match parseValue f rest with
        | some (x, r2) =>
          (match parseArrTail f r2 with
           | some (xs, r3) => some (x :: xs, r3)
           | none => none)
        | none => none
      else none := rfl

theorem parseObjTail_comma_quote (f : Nat) (r2 : List Char) :
    parseObjTail (f + 1) (',' :: '"' :: r2) =
      match parseStringBody r2 with
      | some (k, r3) =>
        (match r3 with
         | ':' :: r4 =>
           (match parseValue f r4 with
            | some (v, r5) =>
              (match parseObjTail f r5 with
               | some (kvs, r6) => some ((String.mk k, v) :: kvs, r6)
               | none => none)
            | none => none)
         | _ => none)
      | none => none := rfl

theorem parseValue_cons (f : Nat) (c : Char) (rest : List Char) :
    parseValue (f + 1) (c :: rest) =
      if c = 'n' then
        match rest with
        | 'u' :: 'l' :: 'l' :: r => some (.null, r)
        | _ => none
      else if c = 't' then
        match rest with
        | 'r' :: 'u' :: 'e' :: r => some (.bool true, r)
        | _ => none
      else if c = 'f' then
        match rest with
        | 'a' :: 'l' :: 's' :: 'e' :: r => some (.bool false, r)
        | _ => none
      else if c = '"' then
        match parseStringBody rest with
        | some (s, r) => some (.str (String.mk s), r)
        | none => none
      else if c = '[' then
        match rest with
        | [] => none
        | c2 :: r2 =>
          if c2 = ']' then some (.arr [], r2)
          else
            match parseValue f (c2 :: r2) with
            | some (x, r3) =>
              (match parseArrTail f r3 with
               | some (xs, r4) => some (.arr (x :: xs), r4)
               | none => none)
            | none => none
      else if c = lbrace then
        match rest with
        | [] => none
        | c2 :: r2 =>
          if c2 = rbrace then some (.obj [], r2)
          else if c2 = '"' then
            match parseStringBody r2 with
            | some (k, r3) =>
              (match r3 with
               | ':' :: r4 =>
                 (match parseValue f r4 with
                  | some (v, r5) =>
                    (match parseObjTail f r5 with
                     | some (kvs, r6) => some (.obj ((String.mk k, v) :: kvs), r6)
                     | none => none)
                  | none => none)
               | _ => none)
            | none => none
          else none
      else if c = '-' || isDigitChar c then
        match parseNumber (c :: rest) with
        | some (n, r) => some (.num n, r)
        | none => none
      else none := rfl

theorem parse_roundtrip_aux (f : Nat) :
    (∀ x rest, jsizeV x ≤ f → headIsDigit rest = false →
      parseValue f (jsonChars x ++ rest) = some (x, rest)) ∧
    (∀ xs rest, jsizeA xs < f →
      parseArrTail f (arrTailChars xs ++ (']' :: rest)) = some (xs, rest)) ∧
    (∀ kvs rest, jsizeO kvs < f →
      parseObjTail f (objTailChars kvs ++ (rbrace :: rest)) = some (kvs, rest)) := by
  induction f with
  | zero =>
    exact ⟨fun x rest hsz _ => absurd hsz (by have := jsizeV_pos x; omega),
      fun xs rest hsz => absurd hsz (by omega),
      fun kvs rest hsz => absurd hsz (by omega)⟩
  | succ f ih =>
    obtain ⟨ihV, ihA, ihO⟩ := ih
    refine ⟨?_, ?_, ?_⟩
    · intro x rest hsz hrest
      cases x with
      | null => rfl
      | bool b => cases b <;> rfl
      | num n =>
        by_cases hn : n < 0
        · have h1 : jsonChars (.num n) ++ rest =
              '-' :: (natToChars n.natAbs ++ rest) := by
            show intToChars n ++ rest = _
            rw [intToChars, if_pos hn, List.cons_append]
          rw [h1, parseValue_cons]
          rw [if_neg (by decide), if_neg (by decide), if_neg (by decide),
            if_neg (by decide), if_neg (by decide), if_neg (by decide),
            if_pos (by decide)]
          have h2 : '-' :: (natToChars n.natAbs ++ rest) = intToChars n ++ rest := by
            rw [intToChars, if_pos hn, List.cons_append]
          rw [h2, parseNumber_roundtrip n rest hrest]
        · obtain ⟨c, cs, hc, hd⟩ := natToChars_head n.natAbs
          have hfacts := isDigitChar_facts c hd
          have h1 : jsonChars (.num n) ++ rest = c :: (cs ++ rest) := by
            show intToChars n ++ rest = _
            rw [intToChars, if_neg hn, hc, List.cons_append]
          rw [h1, parseValue_cons]
          rw [if_neg hfacts.1, if_neg hfacts.2.1, if_neg hfacts.2.2.1,
            if_neg hfacts.2.2.2.1, if_neg hfacts.2.2.2.2.1,
            if_neg hfacts.2.2.2.2.2.1,
            if_pos (by rw [hd, Bool.or_true])]
          have h2 : c :: (cs ++ rest) = intToChars n ++ rest := by
            rw [intToChars, if_neg hn, hc, List.cons_append]
          rw [h2, parseNumber_roundtrip n rest hrest]
      | str s =>
        have h1 : jsonChars (.str s) ++ rest =
            '"' :: (escapeChars s.data ++ ('"' :: rest)) := by
          show ('"' :: (escapeChars s.data ++ ['"'])) ++ rest = _
          simp
        rw [h1, parseValue_str, parseStringBody_escape]
      | arr xs =>
        cases xs with
        | nil => rfl
        | cons x xs =>
          simp only [jsizeV, jsizeA] at hsz
          obtain ⟨hc, hcs, hxeq, hcne⟩ := jsonChars_head x
          have h1 : jsonChars (.arr (x :: xs)) ++ rest =
              '[' :: (hc :: (hcs ++ (arrTailChars xs ++ (']' :: rest)))) := by
            show ('[' :: (jsonChars x ++ (arrTailChars xs ++ [']']))) ++ rest = _
            rw [hxeq]
            simp
          rw [h1, parseValue_arr, if_neg hcne]
          have h2 : hc :: (hcs ++ (arrTailChars xs ++ (']' :: rest))) =
              jsonChars x ++ (arrTailChars xs ++ (']' :: rest)) := by
            rw [hxeq, List.cons_append]
          rw [h2, ihV x _ (by omega) (headIsDigit_arrTail xs rest)]
          simp [ihA xs rest (by omega)]
      | obj kvs =>
        cases kvs with
        | nil => rfl
        | cons kv kvs =>
          obtain ⟨k, v⟩ := kv
          simp only [jsizeV, jsizeO] at hsz
          have h1 : jsonChars (.obj ((k, v) :: kvs)) ++ rest =
              lbrace :: ('"' :: (escapeChars k.data ++
                ('"' :: (':' :: (jsonChars v ++
                  (objTailChars kvs ++ (rbrace :: rest))))))) := by
            show (lbrace :: (('"' :: (escapeChars k.data ++ ['"'])) ++
              (':' :: (jsonChars v ++ (objTailChars kvs ++ [rbrace]))))) ++ rest = _
            simp
          rw [h1, parseValue_obj_quote, parseStringBody_escape]
          simp only []
          rw [ihV v _ (by omega) (headIsDigit_objTail kvs rest)]
          simp [ihO kvs rest (by omega), string_mk_data]
    · intro xs rest hsz
      cases xs with
      | nil => rfl
      | cons x xs =>
        simp only [jsizeA] at hsz
        have h1 : arrTailChars (x :: xs) ++ (']' :: rest) =
            ',' :: (jsonChars x ++ (arrTailChars xs ++ (']' :: rest))) := by
          show (',' :: (jsonChars x ++ arrTailChars xs)) ++ (']' :: rest) = _
          simp
        rw [h1, parseArrTail_cons, if_neg (by decide), if_pos rfl]
        rw [ihV x _ (by omega) (headIsDigit_arrTail xs rest)]
        simp [ihA xs rest (by omega)]
    · intro kvs rest hsz
      cases kvs with
      | nil => rfl
      | cons kv kvs =>
        obtain ⟨k, v⟩ := kv
        simp only [jsizeO] at hsz
        have h1 : objTailChars ((k, v) :: kvs) ++ (rbrace :: rest) =
            ',' :: ('"' :: (escapeChars k.data ++
              ('"' :: (':' :: (jsonChars v ++
                (objTailChars kvs ++ (rbrace :: rest))))))) := by
          show (',' :: ((('"' :: (escapeChars k.data ++ ['"']))) ++
            (':' :: (jsonChars v ++ objTailChars kvs)))) ++ (rbrace :: rest) = _
          simp
        rw [h1, parseObjTail_comma_quote, parseStringBody_escape]
        simp only []
        rw [ihV v _ (by omega) (headIsDigit_objTail kvs rest)]
        simp [ihO kvs rest (by omega), string_mk_data]

theorem jsize_le_len (n : Nat) :
    (∀ x, jsizeV x ≤ n → jsizeV x ≤ (jsonChars x).length) ∧
    (∀ xs, jsizeA xs ≤ n → jsizeA xs ≤ (arrTailChars xs).length) ∧
    (∀ kvs, jsizeO kvs ≤ n → jsizeO kvs ≤ (objTailChars kvs).length) := by
  induction n with
  | zero =>
    refine ⟨fun x h => absurd h (by have := jsizeV_pos x; omega), ?_, ?_⟩
    · intro xs h
      cases xs with
      | nil => simp [jsizeA, arrTailChars]
      | cons y ys =>
        have e : jsizeA (y :: ys) = jsizeV y + jsizeA ys + 1 := rfl
        omega
    · intro kvs h
      cases kvs with
      | nil => simp [jsizeO, objTailChars]
      | cons kv kvs =>
        obtain ⟨k, v⟩ := kv
        have e : jsizeO ((k, v) :: kvs) = jsizeV v + jsizeO kvs + 1 := rfl
        omega
  | succ n ih =>
    obtain ⟨ihV, ihA, ihO⟩ := ih
    refine ⟨?_, ?_, ?_⟩
    · intro x h
      cases x with
      | null => simp [jsizeV, jsonChars]
      | bool b => cases b <;> simp [jsizeV, jsonChars]
      | num m =>
        obtain ⟨c, cs, hc, _⟩ := jsonChars_head (.num m)
        have e : jsizeV (Json.num m) = 1 := rfl
        rw [e, hc]
        simp
      | str s =>
        have e : jsizeV (Json.str s) = 1 := rfl
        have el : (jsonChars (Json.str s)).length =
            (escapeChars s.data).length + 2 := by
          show (('"' :: (escapeChars s.data ++ ['"']))).length = _
          simp
        omega
      | arr xs =>
        cases xs with
        | nil => simp [jsizeV, jsizeA, jsonChars]
        | cons y ys =>
          have e : jsizeV (.arr (y :: ys)) = jsizeV y + jsizeA ys + 2 := rfl
          have hy : jsizeV y ≤ n := by omega
          have hys : jsizeA ys ≤ n := by omega
          have l1 := ihV y hy
          have l2 := ihA ys hys
          have el : (jsonChars (.arr (y :: ys))).length =
              (jsonChars y).length + (arrTailChars ys).length + 2 := by
            show ('[' :: (jsonChars y ++ (arrTailChars ys ++ [']']))).length = _
            simp
            omega
          omega
      | obj kvs =>
        cases kvs with
        | nil => simp [jsizeV, jsizeO, jsonChars]
        | cons kv kvs =>
          obtain ⟨k, v⟩ := kv
          have e : jsizeV (.obj ((k, v) :: kvs)) = jsizeV v + jsizeO kvs + 2 := rfl
          have hv : jsizeV v ≤ n := by omega
          have hkvs : jsizeO kvs ≤ n := by omega
          have l1 := ihV v hv
          have l2 := ihO kvs hkvs
          have el : (jsonChars (.obj ((k, v) :: kvs))).length =
              (escapeChars k.data).length + (jsonChars v).length +
                (objTailChars kvs).length + 5 := by
            show (lbrace :: (('"' :: (escapeChars k.data ++ ['"'])) ++
              (':' :: (jsonChars v ++ (objTailChars kvs ++ [rbrace]))))).length = _
            simp
            omega
          omega
    · intro xs h
      cases xs with
      | nil => simp [jsizeA, arrTailChars]
      | cons y ys =>
        have e : jsizeA (y :: ys) = jsizeV y + jsizeA ys + 1 := rfl
        have hy : jsizeV y ≤ n := by omega
        have hys : jsizeA ys ≤ n := by omega
        have l1 := ihV y hy
        have l2 := ihA ys hys
        have el : (arrTailChars (y :: ys)).length =
            (jsonChars y).length + (arrTailChars ys).length + 1 := by
          show (',' :: (jsonChars y ++ arrTailChars ys)).length = _
          simp
        omega
    · intro kvs h
      cases kvs with
      | nil => simp [jsizeO, objTailChars]
      | cons kv kvs =>
        obtain ⟨k, v⟩ := kv
        have e : jsizeO ((k, v) :: kvs) = jsizeV v + jsizeO kvs + 1 := rfl
        have hv : jsizeV v ≤ n := by omega
        have hkvs : jsizeO kvs ≤ n := by omega
        have l1 := ihV v hv
        have l2 := ihO kvs hkvs
        have el : (objTailChars ((k, v) :: kvs)).length =
            (escapeChars k.data).length + (jsonChars v).length +
              (objTailChars kvs).length + 4 := by
          show (',' :: (('"' :: (escapeChars k.data ++ ['"'])) ++
            (':' :: (jsonChars v ++ objTailChars kvs)))).length = _
          simp
          omega
        omega

theorem jsizeV_le_length (x : Json) : jsizeV x ≤ (jsonChars x).length :=
  (jsize_le_len (jsizeV x)).1 x le_rfl

theorem jsonParse_jsonStringify (x : Json) :
    jsonParse (jsonStringify x) = some x := by
  rw [jsonParse, jsonStringify]
  have hdata : (String.mk (jsonChars x)).data = jsonChars x := rfl
  rw [hdata]
  have h := (parse_roundtrip_aux ((jsonChars x).length + 1)).1 x []
    (by have := jsizeV_le_length x; omega) rfl
  rw [List.append_nil] at h
  rw [h]

/-! ## JavaScript runtime semantics used by the handlers -/

/-- JavaScript truthiness of a JSON value (what `!x` negates). -/
def jsTruthy : Json → Bool
  | .null => false
  | .bool b => b
  | .num n => if n = 0 then false else true
  | .str s => if s = "" then false else true
  | .arr _ => true
  | .obj _ => true

/-- Truthiness of a possibly-`undefined` value (`undefined` is falsy). -/
def jsTruthyOpt : Option Json → Bool
  | none => false
  | some v => jsTruthy v

/-- JavaScript property read `v.k` on a parsed JSON value: on `null` it
throws a TypeError; on an object it yields the field value (last duplicate
wins, as with `JSON.parse`) or `undefined` (`none`); on any other value it
yields `undefined`. -/
def jsGetField (v : Json) (k : String) : Except String (Option Json) :=
  match v with
  | .null =>
    .error ("Cannot read properties of null (reading '" ++ k ++ "')")
  | .obj kvs => .ok (kvs.reverse.lookup k)
  | _ => .ok none

mutual
/-- JavaScript string conversion as used by template literals, for parsed
JSON values: numbers print in decimal, arrays join their elements with
commas, objects print as `[object Object]`. -/
def jsToString : Json → String
  | .null => "null"
  | .bool true => "true"
  | .bool false => "false"
  | .num n => String.mk (intToChars n)
  | .str s => s
  | .arr xs => jsArrJoin xs
  | .obj _ => "[object Object]"

/-- Comma-joined conversion of array elements. -/
def jsArrJoin : List Json → String
  | [] => ""
  | [x] => jsToString x
  | x :: xs => jsToString x ++ "," ++ jsArrJoin xs
end

/-! ## Inbound dispatcher: the `client.click_button` handler

From the unnamed source (`registerClientRpcHandlers`).  The document is
modelled as the ordered list of `data-js-id` attribute values present; the
selector `[data-js-id="<id>"]` matches an element exactly when its
attribute equals the interpolated id. -/

/-- The `try`-block of the `client.click_button` handler: parse
`data.payload ?? '\x7b\x7d'`, read `payload.jsId`, reply "Missing jsId"
when it is falsy, query the document for the element, reply
"Element not found" or click it and reply `\x7b"ok":true\x7d`.
An `.error` value is a raised JavaScript error (SyntaxError from
`JSON.parse`, TypeError from the property read on `null`). -/
def clickButtonBody (payload : Option String) (dom : List String) :
    Except String String :=
  match jsonParse (payload.getD "\x7b\x7d") with
  | none => .error "Unexpected token in JSON"
  | some parsed =>
    match jsGetField parsed "jsId" with
    | .error e => .error e
    | .ok jsId =>
      if !(jsTruthyOpt jsId) then
        .ok (jsonStringify (.obj [("ok", .bool false), ("error", .str "Missing jsId")]))
      else
        match dom.find? (fun el => el = jsToString (jsId.getD .null)) with
        | none =>
          .ok (jsonStringify (.obj [("ok", .bool false), ("error", .str "Element not found")]))
        | some _ => .ok (jsonStringify (.obj [("ok", .bool true)]))

/-- The registered `client.click_button` handler: the `try/catch` wraps the
whole body, converting any raised error into the failure envelope
`\x7bok:false, error:<message>\x7d`.  `.ok` is the string reply handed back
to the transport; `.error` would be an exception escaping the handler. -/
def clickButtonHandler (payload : Option String) (dom : List String) :
    Except String String :=
  match clickButtonBody payload dom with
  | .ok reply => .ok reply
  | .error msg =>
    .ok (jsonStringify (.obj [("ok", .bool false), ("error", .str msg)]))

/-! ## Peer resolver and outbound callers -/

/-- A remote participant: identity plus the `isAgent` capability flag. -/
structure Peer where
  identity : String
  isAgent : Bool
deriving DecidableEq

/-- `findAgent` (rpc-client.ts, lines 3–5): the first remote participant
whose `isAgent` flag is set; `find(...) || null` collapses `undefined`
to `null`, here `Option`. -/
def findAgent (roster : List Peer) : Option Peer :=
  roster.find? (fun p => p.isAgent)

/-- The argument record of `room.localParticipant.performRpc`. -/
structure RpcRequest where
  destinationIdentity : String
  method : String
  payload : String
deriving DecidableEq

/-- `sendDomElements` (rpc-client.ts, lines 7–16), with the transport
(`performRpc`) passed as a function.  `.error` is a raised error: the
`'Agent not found'` throw when no agent is in the roster, or whatever the
transport raised (nothing is caught here). -/
def sendDomElements (roster : List Peer)
    (performRpc : RpcRequest → Except String String) (payload : String) :
    Except String String :=
  match findAgent roster with
  | none => .error "Agent not found"
  | some agent =>
    performRpc ⟨agent.identity, "dom_elements", jsonStringify (.str payload)⟩

/-- The request `sendDomElements` hands to the transport (`none` when it
throws before issuing a call). -/
def sendDomElementsReq (roster : List Peer) (payload : String) :
    Option RpcRequest :=
  (findAgent roster).map fun agent =>
    ⟨agent.identity, "dom_elements", jsonStringify (.str payload)⟩

/-! ## The retrying sender `sendData` (agent-client.tsx, lines 15–55) -/

/-- `room.state` values of the underlying session. -/
inductive RoomState where
  | idle
  | connecting
  | connected
  | disconnected
deriving DecidableEq

/-- The environment `sendData` observes: the room state and roster as seen
at its k-th invocation (it re-reads both on every recursive call), and the
transport outcome for a performed call. -/
structure RoomEnv where
  state : Nat → RoomState
  roster : Nat → List Peer
  performRpc : RpcRequest → Except String String

/-- How one run of `sendData` ends.  `rpcFailedLogged` is the `catch`
branch: the transport error is logged with `console.error` and the function
returns normally.  `gaveUp` is the `else` branch that logs "Agent not found
… after 3 retries" and returns.  `outOfFuel` is a modelling artefact: the
bound on recursion depth was reached while the code would have kept
recursing. -/
inductive SendOutcome where
  | notConnected
  | rpcOk (req : RpcRequest) (response : String)
  | rpcFailedLogged (req : RpcRequest) (err : String)
  | gaveUp
  | outOfFuel
deriving DecidableEq

/-- Observable behaviour of one `sendData` run: how it ended, how many
times it resolved the roster, and the awaited delays in order. -/
structure SendResult where
  outcome : SendOutcome
  attempts : Nat
  delays : List Nat
deriving DecidableEq

/-- `sendData` (agent-client.tsx, lines 15–55), invocation number `k`.
Transliterated: the early return when the room is not connected, the
roster scan for an agent, the `const retryCount = 0` re-declared on every
invocation, `maxRetries = 3`, `retryDelay = 2000`, the computed delay
`retryDelay * (retryCount + 1)`, the retry branch awaiting that delay and
recursing into `sendData(room)`, the give-up branch, and the
`try/catch` around `performRpc` whose `catch` only logs.  `fuel` bounds
the recursion depth of the model. -/
def sendDataAux (env : RoomEnv) (k : Nat) (fuel : Nat) : SendResult :=
  if env.state k ≠ RoomState.connected then
    ⟨.notConnected, 0, []⟩
  else
    let agent := (env.roster k).find? (fun p => p.isAgent)
    let retryCount := 0
    let maxRetries := 3
    let retryDelay := 2000
    let actualRetryDelay := retryDelay * (retryCount + 1)
    match agent with
    | none =>
      if retryCount < maxRetries then
        match fuel with
        | 0 => ⟨.outOfFuel, 1, [actualRetryDelay]⟩
        | fuel + 1 =>
          let r := sendDataAux env (k + 1) fuel
          ⟨r.outcome, r.attempts + 1, actualRetryDelay :: r.delays⟩
      else
        ⟨.gaveUp, 1, []⟩
    | some agent =>
      match env.performRpc ⟨agent.identity, "dom_elements",
          jsonStringify (.obj [("message", .str "important data!")])⟩ with
      | .ok response =>
        ⟨.rpcOk ⟨agent.identity, "dom_elements",
          jsonStringify (.obj [("message", .str "important data!")])⟩ response, 1, []⟩
      | .error e =>
        ⟨.rpcFailedLogged ⟨agent.identity, "dom_elements",
          jsonStringify (.obj [("message", .str "important data!")])⟩ e, 1, []⟩

/-- One call of `sendData` from the outside (invocation number 0). -/
def sendData (env : RoomEnv) (fuel : Nat) : SendResult := sendDataAux env 0 fuel

/-- A connected room whose roster never contains an agent. -/
def noAgentEnv : RoomEnv :=
  ⟨fun _ => .connected, fun _ => [], fun _ => .ok ""⟩

/-- A connected room with an agent present whose transport fails. -/
def failingEnv : RoomEnv :=
  ⟨fun _ => .connected, fun _ => [⟨"agent-1", true⟩],
    fun _ => .error "connection closed"⟩

/-- A connected room whose roster is empty at the first attempt and holds
an agent from the second attempt on, with a succeeding transport. -/
def lateAgentEnv : RoomEnv :=
  ⟨fun _ => .connected,
    fun k => if k = 0 then [] else [⟨"agent-1", true⟩],
    fun _ => .ok "done"⟩

/-- A room that is disconnected throughout. -/
def disconnectedEnv : RoomEnv :=
  ⟨fun _ => .disconnected, fun _ => [], fun _ => .ok ""⟩

/-- A connected room with an agent `B` present and a succeeding transport. -/
def agentOkEnv : RoomEnv :=
  ⟨fun _ => .connected, fun _ => [⟨"B", true⟩], fun _ => .ok "r"⟩

theorem sendDataAux_noAgent (fuel : Nat) :
    ∀ k, sendDataAux noAgentEnv k fuel =
      ⟨.outOfFuel, fuel + 1, List.replicate (fuel + 1) 2000⟩ := by
  induction fuel with
  | zero => intro k; rfl
  | succ fuel ih =>
    intro k
    have h : sendDataAux noAgentEnv k (fuel + 1) =
        ⟨(sendDataAux noAgentEnv (k + 1) fuel).outcome,
         (sendDataAux noAgentEnv (k + 1) fuel).attempts + 1,
         2000 :: (sendDataAux noAgentEnv (k + 1) fuel).delays⟩ := rfl
    rw [h, ih (k + 1)]
    simp [List.replicate_succ]

theorem sendDataAux_never_gaveUp (env : RoomEnv) (fuel : Nat) :
    ∀ k, (sendDataAux env k fuel).outcome ≠ SendOutcome.gaveUp := by
  induction fuel with
  | zero =>
    intro k
    by_cases h : env.state k ≠ RoomState.connected
    · rw [sendDataAux, if_pos h]; simp
    · rw [sendDataAux, if_neg h]
      cases hf : (env.roster k).find? (fun p => p.isAgent) with
      | none => simp [hf]
      | some a =>
        simp only [hf]
        cases hr : env.performRpc ⟨a.identity, "dom_elements",
            jsonStringify (.obj [("message", .str "important data!")])⟩ <;>
          simp [hr]
  | succ fuel ih =>
    intro k
    by_cases h : env.state k ≠ RoomState.connected
    · rw [sendDataAux, if_pos h]; simp
    · rw [sendDataAux, if_neg h]
      cases hf : (env.roster k).find? (fun p => p.isAgent) with
      | none => simp [hf]; exact ih (k + 1)
      | some a =>
        simp only [hf]
        cases hr : env.performRpc ⟨a.identity, "dom_elements",
            jsonStringify (.obj [("message", .str "important data!")])⟩ <;>
          simp [hr]

/-! ## The claims -/

/-- Claim C1.  The claim states that with no agent ever present, `sendData`
performs exactly 4 resolution attempts (1 initial + 3 retries) and then
terminates in failure with `AgentNotFoundError`.  The code does not:
`const retryCount = 0` is re-declared on every recursive call, so the
guard `retryCount < maxRetries` is always `0 < 3` and the function retries
without bound.  For every fuel bound it performs `fuel + 1` resolution
attempts — in particular more than the claimed 4 — with a 2000 ms wait
before each retry, the retries-exhausted branch (`gaveUp`, which would
only `console.warn` and return, not raise) is unreachable in every
environment, and no `AgentNotFoundError`-style failure is ever produced. -/
theorem sendData_noAgent_retries_forever (fuel : Nat) :
    (sendData noAgentEnv fuel).attempts = fuel + 1 ∧
    (sendData noAgentEnv fuel).outcome = SendOutcome.outOfFuel ∧
    (sendData noAgentEnv fuel).delays = List.replicate (fuel + 1) 2000 ∧
    ∀ env k f, (sendDataAux env k f).outcome ≠ SendOutcome.gaveUp := by
  have h := sendDataAux_noAgent fuel 0
  exact ⟨by rw [sendData, h], by rw [sendData, h], by rw [sendData, h],
    fun env k f => sendDataAux_never_gaveUp env f k⟩

/-- Claim C2.  The claim states that the delay before the 0-based retry k
is `2000 × (k + 1)` ms (2000, 4000, 6000, …).  In the code `retryCount`
is 0 at every recursive call, so the computed delay
`retryDelay * (retryCount + 1)` is 2000 ms before every retry: running
with no agent present records four delays of 2000 ms each, not the claimed
linearly-growing schedule. -/
theorem sendData_retry_delay_constant :
    (sendData noAgentEnv 3).delays = [2000, 2000, 2000, 2000] ∧
    (sendData noAgentEnv 3).delays ≠
      [2000 * 1, 2000 * 2, 2000 * 3, 2000 * 4] := by decide

/-- Claim C3, counterexample.  The claim states that a transport failure
after the peer was found is raised to the immediate caller and never
swallowed.  With an agent present and a failing transport, `sendData`'s
`catch` branch runs instead (`rpcFailedLogged`): the error is logged with
`console.error` and the function returns normally, so its caller observes
an ordinary resolution, not a raised failure. -/
theorem sendData_swallows_transport_error :
    (sendData failingEnv 1).outcome =
      SendOutcome.rpcFailedLogged ⟨"agent-1", "dom_elements",
        jsonStringify (.obj [("message", Json.str "important data!")])⟩
        "connection closed" ∧
    (sendData failingEnv 1).attempts = 1 ∧
    (sendData failingEnv 1).delays = [] :=
  ⟨rfl, rfl, rfl⟩

/-- Claim C3, amended.  `sendDomElements` raises outbound errors unchanged
to its immediate caller and never converts them into a success, and a
transport failure after the peer was found is never retried: `sendData`
performs exactly one resolution and no delays after such a failure — but
`sendData` catches and logs the failure rather than re-raising it. -/
theorem outbound_transport_error_propagation :
    (∀ (roster : List Peer) (performRpc : RpcRequest → Except String String)
        (payload : String) (agent : Peer) (e : String),
      findAgent roster = some agent →
      performRpc ⟨agent.identity, "dom_elements",
        jsonStringify (Json.str payload)⟩ = .error e →
      sendDomElements roster performRpc payload = .error e) ∧
    (∀ (env : RoomEnv) (b : Peer) (e : String) (fuel : Nat),
      env.state 0 = RoomState.connected →
      findAgent (env.roster 0) = some b →
      env.performRpc ⟨b.identity, "dom_elements",
        jsonStringify (.obj [("message", Json.str "important data!")])⟩ = .error e →
      sendData env fuel =
        ⟨.rpcFailedLogged ⟨b.identity, "dom_elements",
          jsonStringify (.obj [("message", Json.str "important data!")])⟩ e,
          1, []⟩) := by
  constructor
  · intro roster performRpc payload agent e hfind hrpc
    rw [sendDomElements, hfind]
    exact hrpc
  · intro env b e fuel hs hfind hrpc
    rw [findAgent] at hfind
    rw [sendData, sendDataAux, if_neg (by simp [hs])]
    simp only [hfind]
    rw [hrpc]

/-- Claim C3, witness for the amended theorem. -/
theorem outbound_transport_error_propagation_witness :
    sendDomElements [⟨"agent-1", true⟩] (fun _ => .error "boom") "p" =
      .error "boom" ∧
    sendData failingEnv 0 =
      ⟨.rpcFailedLogged ⟨"agent-1", "dom_elements",
        jsonStringify (.obj [("message", Json.str "important data!")])⟩
        "connection closed", 1, []⟩ :=
  ⟨outbound_transport_error_propagation.1 [⟨"agent-1", true⟩]
      (fun _ => .error "boom") "p" ⟨"agent-1", true⟩ "boom" rfl rfl,
    outbound_transport_error_propagation.2 failingEnv ⟨"agent-1", true⟩
      "connection closed" 0 rfl rfl rfl⟩

/-- Claim C4.  `findAgent` returns the first peer in roster order whose
`isAgent` flag is true, and `none` when no peer has it; in particular
for `[A(isAgent:false), B(isAgent:true)]` it returns B, and for the empty
roster it returns `none`. -/
theorem findAgent_first_agent :
    (∀ (roster : List Peer) (p : Peer), findAgent roster = some p →
      p.isAgent = true ∧ ∃ pre post, roster = pre ++ p :: post ∧
        ∀ q ∈ pre, q.isAgent = false) ∧
    (∀ roster : List Peer, (∀ p ∈ roster, p.isAgent = false) →
      findAgent roster = none) ∧
    findAgent [⟨"A", false⟩, ⟨"B", true⟩] = some ⟨"B", true⟩ ∧
    findAgent ([] : List Peer) = none := by
  refine ⟨?_, ?_, rfl, rfl⟩
  · intro roster
    induction roster with
    | nil => intro p h; simp [findAgent] at h
    | cons q qs ih =>
      intro p h
      by_cases hq : q.isAgent = true
      · rw [findAgent, List.find?_cons_of_pos _ hq] at h
        obtain rfl : q = p := by injection h
        exact ⟨hq, [], qs, rfl, by intro r hr; simp at hr⟩
      · rw [findAgent, List.find?_cons_of_neg _ (by simpa using hq)] at h
        obtain ⟨hAg, pre, post, heq, hpre⟩ := ih p (by rw [findAgent]; exact h)
        refine ⟨hAg, q :: pre, post, by rw [heq]; rfl, ?_⟩
        intro r hr
        rcases List.mem_cons.mp hr with rfl | hr
        · simpa using hq
        · exact hpre r hr
  · intro roster hall
    rw [findAgent, List.find?_eq_none]
    intro p hp
    simp [hall p hp]

/-- Claim C4, witness. -/
theorem findAgent_first_agent_witness :
    Peer.isAgent ⟨"B", true⟩ = true ∧ ∃ pre post,
      [Peer.mk "A" false, Peer.mk "B" true] = pre ++ Peer.mk "B" true :: post ∧
      ∀ q ∈ pre, q.isAgent = false :=
  findAgent_first_agent.1 [⟨"A", false⟩, ⟨"B", true⟩] ⟨"B", true⟩ rfl

/-- Claim C5.  For every inbound `client.click_button` call whose decoded
payload has no `jsId` field (field read yields `undefined`), the reply is
exactly the JSON string `\x7b"ok":false,"error":"Missing jsId"\x7d`. -/
theorem clickButton_missing_jsId_reply (payload : Option String)
    (dom : List String) (v : Json)
    (hparse : jsonParse (payload.getD "\x7b\x7d") = some v)
    (hfield : jsGetField v "jsId" = .ok none) :
    clickButtonHandler payload dom =
      .ok "\x7b\"ok\":false,\"error\":\"Missing jsId\"\x7d" := by
  rw [clickButtonHandler, clickButtonBody, hparse]
  simp only [hfield, jsTruthyOpt]
  rfl

/-- Claim C5, witness. -/
theorem clickButton_missing_jsId_reply_witness :
    clickButtonHandler (some "\x7b\"other\":1\x7d") ["btn"] =
      .ok "\x7b\"ok\":false,\"error\":\"Missing jsId\"\x7d" :=
  clickButton_missing_jsId_reply (some "\x7b\"other\":1\x7d") ["btn"]
    (Json.obj [("other", Json.num 1)]) rfl rfl

/-- Claim C6.  The `client.click_button` handler never lets an exception
escape: for every payload and document it replies `.ok` with some string;
whenever its try-block raises with message m, the reply is the failure
envelope for m; and in particular a malformed-JSON payload gets the
failure envelope carrying the parse error's message. -/
theorem clickButton_dispatch_never_throws :
    (∀ payload dom, ∃ reply, clickButtonHandler payload dom = .ok reply) ∧
    (∀ payload dom m, clickButtonBody payload dom = .error m →
      clickButtonHandler payload dom =
        .ok (jsonStringify (.obj [("ok", .bool false), ("error", .str m)]))) ∧
    clickButtonHandler (some "not json") [] =
      .ok "\x7b\"ok\":false,\"error\":\"Unexpected token in JSON\"\x7d" := by
  refine ⟨?_, ?_, rfl⟩
  · intro payload dom
    cases hb : clickButtonBody payload dom with
    | ok r => exact ⟨r, by rw [clickButtonHandler, hb]⟩
    | error m => exact ⟨_, by rw [clickButtonHandler, hb]⟩
  · intro payload dom m hb
    rw [clickButtonHandler, hb]

/-- Claim C6, witness. -/
theorem clickButton_dispatch_never_throws_witness :
    clickButtonHandler (some "null") [] =
      .ok (jsonStringify (.obj [("ok", .bool false),
        ("error", .str "Cannot read properties of null (reading 'jsId')")])) :=
  clickButton_dispatch_never_throws.2.1 (some "null") []
    "Cannot read properties of null (reading 'jsId')" rfl

/-- Claim C7.  If no agent is present at the first resolution attempt but
one is at the second (the roster function is re-queried at each attempt —
nothing is cached across attempts), `sendData` succeeds using the second
attempt's resolution after a single 2000 ms wait, with no further
retries. -/
theorem sendData_agent_on_second_attempt (env : RoomEnv) (b : Peer)
    (resp : String) (fuel : Nat)
    (hs0 : env.state 0 = RoomState.connected)
    (hs1 : env.state 1 = RoomState.connected)
    (h0 : findAgent (env.roster 0) = none)
    (h1 : findAgent (env.roster 1) = some b)
    (hrpc : env.performRpc ⟨b.identity, "dom_elements",
      jsonStringify (.obj [("message", Json.str "important data!")])⟩ = .ok resp) :
    sendData env (fuel + 1) =
      ⟨.rpcOk ⟨b.identity, "dom_elements",
        jsonStringify (.obj [("message", Json.str "important data!")])⟩ resp,
        2, [2000]⟩ := by
  rw [findAgent] at h0 h1
  have hrec : sendDataAux env 1 fuel =
      ⟨.rpcOk ⟨b.identity, "dom_elements",
        jsonStringify (.obj [("message", Json.str "important data!")])⟩ resp,
        1, []⟩ := by
    rw [sendDataAux, if_neg (by simp [hs1])]
    simp only [h1]
    rw [hrpc]
  rw [sendData, sendDataAux, if_neg (by simp [hs0])]
  simp only [h0]
  simp only [Nat.zero_lt_succ, if_pos]
  rw [hrec]

/-- Claim C7, witness. -/
theorem sendData_agent_on_second_attempt_witness :
    sendData lateAgentEnv 1 =
      ⟨.rpcOk ⟨"agent-1", "dom_elements",
        jsonStringify (.obj [("message", Json.str "important data!")])⟩ "done",
        2, [2000]⟩ :=
  sendData_agent_on_second_attempt lateAgentEnv ⟨"agent-1", true⟩ "done" 0
    rfl rfl rfl rfl rfl

/-- Claim C8.  Every outbound `dom_elements` call carries a double-encoded
payload: `sendDomElements` hands the transport the JSON stringification of
the caller-supplied payload string, with method `dom_elements`, addressed
to the resolved agent's identity — decoding the transported payload once
recovers the caller's string as a JSON string value; and `sendData`'s
`dom_elements` call likewise carries the JSON stringification of its
payload object. -/
theorem domElements_payload_double_encoded (roster : List Peer)
    (payload : String) (agent : Peer) (h : findAgent roster = some agent) :
    sendDomElementsReq roster payload =
      some ⟨agent.identity, "dom_elements", jsonStringify (Json.str payload)⟩ ∧
    (∀ performRpc, sendDomElements roster performRpc payload =
      performRpc ⟨agent.identity, "dom_elements",
        jsonStringify (Json.str payload)⟩) ∧
    jsonParse (jsonStringify (Json.str payload)) = some (Json.str payload) ∧
    sendData agentOkEnv 0 =
      ⟨.rpcOk ⟨"B", "dom_elements",
        jsonStringify (.obj [("message", Json.str "important data!")])⟩ "r",
        1, []⟩ := by
  refine ⟨?_, ?_, jsonParse_jsonStringify (Json.str payload), rfl⟩
  · rw [sendDomElementsReq, h]; rfl
  · intro performRpc; rw [sendDomElements, h]

/-- Claim C8, witness. -/
theorem domElements_payload_double_encoded_witness :
    sendDomElementsReq [⟨"B", true⟩] "hello" =
      some ⟨"B", "dom_elements", jsonStringify (Json.str "hello")⟩ ∧
    (∀ performRpc, sendDomElements [⟨"B", true⟩] performRpc "hello" =
      performRpc ⟨"B", "dom_elements", jsonStringify (Json.str "hello")⟩) ∧
    jsonParse (jsonStringify (Json.str "hello")) = some (Json.str "hello") ∧
    sendData agentOkEnv 0 =
      ⟨.rpcOk ⟨"B", "dom_elements",
        jsonStringify (.obj [("message", Json.str "important data!")])⟩ "r",
        1, []⟩ :=
  domElements_payload_double_encoded [⟨"B", true⟩] "hello" ⟨"B", true⟩ rfl

/-- Claim C9.  Round-trip of the envelope codec: decoding the encoding of
any JSON value yields the value back, `decode (encode x) = x`. -/
theorem envelope_codec_roundtrip (x : Json) :
    jsonParse (jsonStringify x) = some x :=
  jsonParse_jsonStringify x

/-- Claim C10.  If the room's state is anything other than `connected`
when `sendData` is invoked, it returns immediately: no resolution attempt
is made, no delay is awaited, and no RPC call is issued (the outcome is
`notConnected`, not any of the call outcomes). -/
theorem sendData_not_connected_no_effects (env : RoomEnv) (fuel : Nat)
    (h : env.state 0 ≠ RoomState.connected) :
    sendData env fuel = ⟨.notConnected, 0, []⟩ := by
  rw [sendData, sendDataAux, if_pos h]

/-- Claim C10, witness. -/
theorem sendData_not_connected_no_effects_witness :
    sendData disconnectedEnv 5 = ⟨.notConnected, 0, []⟩ :=
  sendData_not_connected_no_effects disconnectedEnv 5 (by decide)

end AgentEmbed
